import Mathlib

/-!
Shallow embedding of the `wm` tiling window-manager core (crates/lucky), covering
the data model (`Position`, `Client`, `Workspace`, `Screen`, `ScreenManager`),
the `ScreenManager` operations (`create_client`, `close_focused_client`,
`get_relative_screen_idx`, `maybe_switch_screen`) and the `TallLayout`
geometry and navigation algorithms (`display_clients`, `focus_client`,
`move_client`), together with theorems settling the specification claims.

Conventions of the embedding:
- xcb window ids (`xcb::x::Window`, a `u32` used only as an opaque identifier
  compared for equality) are modelled as `Nat`.
- `i32` coordinates are modelled as `Int` and `u32` sizes as `Nat`; the source
  arithmetic on them never relies on wraparound (Rust would panic on overflow
  or on `u32` underflow in debug builds), so theorems about subtractions carry
  explicit no-underflow hypotheses under which `Nat` truncated subtraction
  agrees with the source.
- `HashMap<Window, Client>` is modelled as an association list; only lookup /
  insert / remove behaviour is observable in the embedded operations.
- Rust slice indexing (which panics out of bounds) is modelled with `getD`;
  the relevant theorems carry the §3 data-model invariants
  (`active_screen < screens.length`, `active_workspace < workspaces.length`)
  as hypotheses.
- A reached `panic!` / `.expect` failure is modelled by an explicit result
  constructor (`ExecResult.panicked` or `Option.none`), never by a default
  value.
-/

namespace WM

/-- Screen/window identifier (`xcb::x::Window`). -/
abbrev Window : Type := Nat

/-- Axis-aligned rectangle (`screen_manager.rs::Position`): `x`/`y` are `i32`,
`width`/`height` are `u32`. -/
structure Position where
  x : Int
  y : Int
  width : Nat
  height : Nat
deriving DecidableEq, Repr

/-- Rust `Position::right`: `x + width`. -/
def Position.right (p : Position) : Int := p.x + p.width

/-- Rust `Position::left`: `x`. -/
def Position.left (p : Position) : Int := p.x

/-- Rust `Position::bottom`: `y + height`. -/
def Position.bottom (p : Position) : Int := p.y + p.height

/-- Rust `Position::top`: `y`. -/
def Position.top (p : Position) : Int := p.y

/-- Direction of a spatial query (`screen_manager.rs::Direction`). -/
inductive Direction where
  | left
  | down
  | up
  | right
deriving DecidableEq, Repr

/-- A managed window (`screen.rs::Client`); field order as in the source. -/
structure Client where
  frame : Window
  window : Window
  workspace : Nat
  visible : Bool
deriving DecidableEq, Repr

/-- A virtual desktop (`screen.rs::Workspace`). The `name` (display string) and
`layout` (single-variant enum `WorkspaceLayout::Tall`) fields carry no
information used by any embedded operation and are omitted. -/
structure Workspace where
  id : Nat
  clients : List Window
  focused_client : Option Window
deriving DecidableEq, Repr

instance : Inhabited Workspace := ⟨⟨0, [], none⟩⟩

/-- Rust `Workspace::new_client`: append to the tail of the client list. -/
def Workspace.new_client (w : Workspace) (client : Window) : Workspace :=
  { w with clients := w.clients ++ [client] }

/-- Rust `Workspace::set_focused_client`. -/
def Workspace.set_focused_client (w : Workspace) (client : Option Window) : Workspace :=
  { w with focused_client := client }

/-- Rust `Workspace::remove_client`: retain all entries different from
`client`, then clear the focus iff the focused id equals `client`. -/
def Workspace.remove_client (w : Workspace) (client : Window) : Workspace :=
  { w with
    clients := w.clients.filter (fun i => i ≠ client),
    focused_client :=
      if w.focused_client = some client then none else w.focused_client }

/-- One monitor (`screen.rs::Screen`). The four reserved-margin accumulators
are kept (untouched by every operation in scope of the claims); the
`reserved_clients` list of `ReservedClient` records, which no embedded
operation reads or writes, is omitted. -/
structure Screen where
  position : Position
  active_workspace : Nat
  workspaces : List Workspace
  reserved_left_area : Nat
  reserved_bottom_area : Nat
  reserved_top_area : Nat
  reserved_right_area : Nat
deriving DecidableEq, Repr

instance : Inhabited Screen := ⟨⟨⟨0, 0, 0, 0⟩, 0, [], 0, 0, 0, 0⟩⟩

/-- Rust `Screen::active_workspace`: `self.workspaces[self.active_workspace]`
(panics out of bounds; theorems assume the §3 invariant). -/
def Screen.activeWorkspace (s : Screen) : Workspace :=
  s.workspaces.getD s.active_workspace default

/-- In-place mutation of the active workspace, as done through Rust
`Screen::active_workspace_mut`. -/
def Screen.modifyActiveWorkspace (s : Screen) (f : Workspace → Workspace) : Screen :=
  { s with workspaces := s.workspaces.set s.active_workspace (f s.activeWorkspace) }

/-- Rust `Screen::focused_client`: the active workspace's focused client. -/
def Screen.focused_client (s : Screen) : Option Window :=
  s.activeWorkspace.focused_client

/-- The configuration values consumed by the embedded operations
(`config::Config` accessors `focus_new_clients`, `border_width`,
`workspaces`); the configuration is read-only after startup. -/
structure Config where
  focus_new_clients : Bool
  border_width : Nat
  workspaces : Nat
deriving DecidableEq, Repr

/-- Association-list model of `HashMap<xcb::x::Window, Client>`. -/
abbrev ClientMap : Type := List (Window × Client)

/-- Lookup in the client map (`HashMap::get`). -/
def mapGet (m : ClientMap) (k : Window) : Option Client :=
  m.lookup k

/-- Insert into the client map (`HashMap::insert`, replacing any previous
binding for the key; the map is unordered, so only lookup behaviour is
observable). -/
def mapInsert (m : ClientMap) (k : Window) (v : Client) : ClientMap :=
  m.filter (fun e => e.1 ≠ k) ++ [(k, v)]

/-- Remove from the client map (`HashMap::remove`). -/
def mapRemove (m : ClientMap) (k : Window) : ClientMap :=
  m.filter (fun e => e.1 ≠ k)

/-- The registry (`screen_manager.rs::ScreenManager`). -/
structure ScreenManager where
  screens : List Screen
  clients : ClientMap
  active_screen : Nat
  config : Config
deriving DecidableEq, Repr

/-- Rust `self.screens[self.active_screen]` (panics out of bounds; theorems
assume the §3 invariant `active_screen < screens.length`). -/
def ScreenManager.activeScreen (sm : ScreenManager) : Screen :=
  sm.screens.getD sm.active_screen default

/-- In-place mutation of screen `i`, as done through Rust
`ScreenManager::screen_mut`. -/
def ScreenManager.modifyScreen (sm : ScreenManager) (i : Nat) (f : Screen → Screen) :
    ScreenManager :=
  { sm with screens := sm.screens.set i (f (sm.screens.getD i default)) }

/-- Rust `ScreenManager::set_active_screen`. -/
def ScreenManager.set_active_screen (sm : ScreenManager) (i : Nat) : ScreenManager :=
  { sm with active_screen := i }

/-- Rust `ScreenManager::create_client`: insert the `(frame, window)` pair into
the map (recording the active workspace id), append `frame` to the active
screen's active workspace, then focus it iff `focus_new_clients` is set or the
workspace now has exactly one client. -/
def ScreenManager.create_client (sm : ScreenManager) (frame window : Window) :
    ScreenManager :=
  let wsId := sm.activeScreen.activeWorkspace.id
  let withMap :=
    { sm with clients := mapInsert sm.clients frame ⟨frame, window, wsId, true⟩ }
  withMap.modifyScreen withMap.active_screen (fun sc =>
    sc.modifyActiveWorkspace (fun ws =>
      let ws := ws.new_client frame
      if sm.config.focus_new_clients || ws.clients.length == 1 then
        ws.set_focused_client (some frame)
      else ws))

/-- Rust `ScreenManager::close_focused_client`: if the active screen has a
focused client, remove it from the workspace, focus the new head of the list,
and remove it from the map, returning the removed record; otherwise return
`Ok(None)`.  The `anyhow::Result` return type is modelled by `Except String`;
the source constructs only `Ok` values. -/
def ScreenManager.close_focused_client (sm : ScreenManager) :
    Except String (Option Client) × ScreenManager :=
  match sm.activeScreen.focused_client with
  | some frame =>
    let sm' := sm.modifyScreen sm.active_screen (fun sc =>
      sc.modifyActiveWorkspace (fun ws =>
        let ws := ws.remove_client frame
        ws.set_focused_client ws.clients.head?))
    (Except.ok (mapGet sm.clients frame),
      { sm' with clients := mapRemove sm'.clients frame })
  | none => (Except.ok none, sm)

/-- Direction-specific half-plane filter of `get_relative_screen_idx`
(candidate position against the active screen's position). -/
def dirPred (d : Direction) (candidate curr : Position) : Bool :=
  match d with
  | .left => candidate.right ≤ curr.left
  | .down => candidate.top ≥ curr.bottom
  | .up => candidate.bottom ≤ curr.top
  | .right => candidate.left ≥ curr.right

/-- Fuel-driven binary search for the integer square root; maintains the
invariant `lo * lo ≤ n < hi * hi`. -/
def sqrtAux (n : Nat) : Nat → Nat → Nat → Nat
  | 0, lo, _hi => lo
  | fuel+1, lo, hi =>
    if hi ≤ lo + 1 then lo
    else
      let mid := (lo + hi) / 2
      if mid * mid ≤ n then sqrtAux n fuel mid hi else sqrtAux n fuel lo mid

/-- Executable (kernel-reducible) integer square root; proved equal to
`Nat.sqrt` in `isqrt_eq_sqrt`. -/
def isqrt (n : Nat) : Nat := sqrtAux n (n + 2) 0 (n + 1)

/-- The comparison key of `get_relative_screen_idx`:
`(euclidean_distance(x1, y1, x2, y2) * 1000.0) as i32` in the source, i.e.
`⌊1000 * √((x2-x1)² + (y2-y1)²)⌋ = ⌊√(10⁶ * ((x2-x1)² + (y2-y1)²))⌋`
(the `f64` computation is exact at this magnitude: the radicand fits well
within the 53-bit mantissa). -/
def distKey (x1 y1 x2 y2 : Int) : Nat :=
  isqrt ((1000000 * ((x2 - x1) ^ 2 + (y2 - y1) ^ 2)).toNat)

/-- Rust `Iterator::min_by_key`: the first element attaining the minimal key
(later elements replace the current minimum only when strictly smaller). -/
def minByKeyFirst {α : Type} (key : α → Nat) : List α → Option α
  | [] => none
  | x :: xs =>
    match minByKeyFirst key xs with
    | none => some x
    | some y => if key x ≤ key y then some x else some y

/-- Rust `ScreenManager::get_relative_screen_idx`: enumerate all screens,
filter by the direction's half-plane predicate against the active screen, and
take the index minimizing the truncated distance key between top-left
corners. -/
def ScreenManager.get_relative_screen_idx (sm : ScreenManager) (d : Direction) :
    Option Nat :=
  let curr := sm.activeScreen.position
  let cands := (sm.screens.enum.map (fun p => (p.1, p.2.position))).filter
    (fun p => dirPred d p.2 curr)
  (minByKeyFirst (fun p => distKey p.2.left p.2.top curr.left curr.top) cands).map
    (fun p => p.1)

/-- Rust `is_cursor_inside`: half-open containment test
`x ∈ [left, left+width) ∧ y ∈ [top, top+height)`. -/
def is_cursor_inside (x y : Int) (p : Position) : Bool :=
  decide (p.x ≤ x) && decide (x < p.x + p.width) &&
    decide (p.y ≤ y) && decide (y < p.y + p.height)

/-- Rust `ScreenManager::maybe_switch_screen`: for every screen containing the
pointer, set it active (`for_each`, so the last matching screen wins). -/
def ScreenManager.maybe_switch_screen (sm : ScreenManager) (x y : Int) :
    ScreenManager :=
  { sm with
    active_screen := sm.screens.enum.foldl
      (fun acc p => if is_cursor_inside x y p.2.position then p.1 else acc)
      sm.active_screen }

/-- Result of one tall-layout geometry placement: the frame rectangle in root
coordinates and the content-window rectangle in frame-local coordinates, as
issued by the two `configure_window` calls of `display_main_client` /
`display_side_client`. -/
structure PlacedClient where
  framePos : Position
  clientPos : Position
deriving DecidableEq, Repr

/-- Rust `u32::div_ceil` (panics when `b = 0`; every use in scope divides by
`total - 1` with `total ≥ 2`). -/
def divCeil (a b : Nat) : Nat := (a + b - 1) / b

namespace TallLayout

/-- The main-column width computed at the top of `display_clients`:
the full screen width for a single visible client, else half of it
(integer floor division). -/
def mainWidth (width visible_clients_len : Nat) : Nat :=
  if visible_clients_len == 1 then width else width / 2

/-- Geometry of `TallLayout::display_main_client` (index 0): the frame at the
screen origin sized `(main_width - 2B, height - 2B)`, the content window at
local `(0,0)` sized `(main_width - B, height - B)`.  `u32` subtraction panics
on underflow where `Nat` subtraction truncates; theorems about this function
carry no-underflow hypotheses. -/
def display_main_client (screen : Position) (main_width border_width : Nat) :
    PlacedClient :=
  let border_double := border_width * 2
  { framePos :=
      ⟨screen.x, screen.y, main_width - border_double, screen.height - border_double⟩
    clientPos :=
      ⟨0, 0, main_width - border_width, screen.height - border_width⟩ }

/-- Geometry of `TallLayout::display_side_client` (indices `1..total-1`):
column width `screen.width - main_width`, slice height
`ceil(screen.height / (total - 1))`, vertical offset `height * (index - 1)`;
frame sized `(width - 2B, height - 2B)` and content window at local `(0,0)`
with the same size. -/
def display_side_client (screen : Position) (index total main_width border_width : Nat) :
    PlacedClient :=
  let width := screen.width - main_width
  let total_siblings := total - 1
  let height := divCeil screen.height total_siblings
  let sibling_index := index - 1
  let border_double := border_width * 2
  let position_y : Int := (height * sibling_index : Nat)
  { framePos :=
      ⟨screen.x + main_width, screen.y + position_y,
        width - border_double, height - border_double⟩
    clientPos := ⟨0, 0, width - border_double, height - border_double⟩ }

/-- The geometry side of `TallLayout::display_clients` on `n` visible clients
(in workspace order): index 0 is placed by `display_main_client`, every other
index by `display_side_client`.  The decorator calls and window mapping are
protocol effects with no bearing on geometry. -/
def display_clients_geometry (screen : Position) (border_width n : Nat) :
    List PlacedClient :=
  (List.range n).map (fun i =>
    if i == 0 then
      display_main_client screen (mainWidth screen.width n) border_width
    else
      display_side_client screen i n (mainWidth screen.width n) border_width)

/-- Rust `TallLayout::is_first`: the focused client is the head of the list. -/
def is_first (screen : Screen) (client : Window) : Bool :=
  screen.activeWorkspace.clients.head? == some client

/-- Rust `TallLayout::is_last`: the focused client is the last of the list. -/
def is_last (screen : Screen) (client : Window) : Bool :=
  screen.activeWorkspace.clients.getLast? == some client

/-- Rust `TallLayout::focus_last`: focus the last client of the active
workspace.  The source `.expect`s on an empty workspace; callers invoke it
only on non-empty workspaces (and inside `focus_client`/`move_client` the call
site is dead code, see `TallLayout.focus_client`). -/
def focus_last (screen : Screen) (_client : Window) : Screen :=
  match screen.activeWorkspace.clients.getLast? with
  | some c => screen.modifyActiveWorkspace (fun w => w.set_focused_client (some c))
  | none => screen

/-- Rust `TallLayout::focus_prev`: focus the list predecessor of `client`.
The source panics when `client` is absent or first (usize underflow); the
directional bindings guard the call with `is_first`, so those paths are
unreachable and are modelled as the identity. -/
def focus_prev (screen : Screen) (client : Window) : Screen :=
  match screen.activeWorkspace.clients.findIdx? (fun c => c == client) with
  | none => screen
  | some index =>
    match screen.activeWorkspace.clients.get? (index - 1) with
    | none => screen
    | some c => screen.modifyActiveWorkspace (fun w => w.set_focused_client (some c))

/-- Swap of two list positions (Rust `Vec::swap`, which panics out of bounds;
modelled as the identity there — the callers' find guarantees in-bounds
indices). -/
def listSwap (l : List Window) (i j : Nat) : List Window :=
  match l.get? i, l.get? j with
  | some a, some b => (l.set i b).set j a
  | _, _ => l

/-- Rust `TallLayout::swap_prev`: swap `client` with its list predecessor.
As with `focus_prev`, the absent-client and first-position panics are guarded
away by the directional bindings. -/
def swap_prev (screen : Screen) (client : Window) : Screen :=
  match screen.activeWorkspace.clients.findIdx? (fun c => c == client) with
  | none => screen
  | some index =>
    screen.modifyActiveWorkspace (fun w =>
      { w with clients := listSwap w.clients index (index - 1) })

/-- Outcome of running an embedded navigation operation: a result state, a
reached panic, or exhausted recursion fuel (the source's cross-screen
recursion in `focus_client` has no fuel bound; `outOfFuel` witnesses that the
recursion depth exceeded the fuel given to the model). -/
inductive ExecResult (α : Type) where
  | ok (value : α)
  | panicked
  | outOfFuel
deriving DecidableEq, Repr

/-- Rust `TallLayout::focus_client` (tall_layout.rs:273-320), fuel-bounded.
Steps, in source order:
1. bounds assert of `screen_mut` (panic if `active_screen` is out of bounds);
2. if the active workspace has no clients, return;
3. `.expect` the focused client — this PANICS whenever the workspace has
   clients but no focused client, making the subsequent
   `if screen.focused_client().is_none() { when_empty(...); return; }`
   branch dead code (it is kept below for fidelity);
4. if `should_change_screen`, hop to `get_relative_screen_idx`'s screen (if
   any) and recurse, else apply the terminal `focus` operator. -/
def focus_client (fuel : Nat) (sm : ScreenManager)
    (when_empty : Screen → Window → Screen)
    (should_change_screen : Screen → Window → Bool)
    (change_screen_direction : Direction)
    (focus : Screen → Window → Screen) : ExecResult ScreenManager :=
  match fuel with
  | 0 => .outOfFuel
  | fuel + 1 =>
    let index := sm.active_screen
    if sm.screens.length ≤ index then .panicked
    else
      let screen := sm.screens.getD index default
      if screen.activeWorkspace.clients.isEmpty then .ok sm
      else
        match screen.focused_client with
        | none => .panicked
        | some client =>
          if screen.focused_client.isNone then
            .ok (sm.modifyScreen index (fun _ => when_empty screen client))
          else if should_change_screen screen client then
            match sm.get_relative_screen_idx change_screen_direction with
            | none => .ok sm
            | some new_screen =>
              focus_client fuel (sm.set_active_screen new_screen) when_empty
                should_change_screen change_screen_direction focus
          else .ok (sm.modifyScreen index (fun _ => focus screen client))

/-- Rust `TallLayout::move_client` (tall_layout.rs:322-373).  Same shape as
`focus_client` (including the same dead `when_empty` branch behind a panicking
`.expect`), but the cross-screen step removes the client from the current
workspace, appends it to the neighboring screen's active workspace, and stops
(no recursion).  `none` models a reached panic. -/
def move_client (sm : ScreenManager)
    (when_empty : Screen → Window → Screen)
    (should_change_screen : Screen → Window → Bool)
    (change_screen_direction : Direction)
    (swap : Screen → Window → Screen) : Option ScreenManager :=
  let index := sm.active_screen
  if sm.screens.length ≤ index then none
  else
    let screen := sm.screens.getD index default
    if screen.activeWorkspace.clients.isEmpty then some sm
    else
      match screen.focused_client with
      | none => none
      | some client =>
        if screen.focused_client.isNone then
          some (sm.modifyScreen index (fun _ => when_empty screen client))
        else if should_change_screen screen client then
          match sm.get_relative_screen_idx change_screen_direction with
          | none => some sm
          | some new_screen =>
            let sm₁ := sm.modifyScreen index (fun sc =>
              sc.modifyActiveWorkspace (fun ws => ws.remove_client client))
            some (sm₁.modifyScreen new_screen (fun sc =>
              sc.modifyActiveWorkspace (fun ws => ws.new_client client)))
        else some (sm.modifyScreen index (fun _ => swap screen client))

end TallLayout

/-! Specification-side definitions: each is written from the words of a spec
claim (never from the source) and is compared against the corresponding
source-derived definition by a refinement theorem or counterexample. -/

/-- Written from the claim on `display_clients`: a placed client's content
rectangle "is inset by exactly B on each inward edge relative to that client's
frame rectangle" — in frame-local coordinates the content starts at `(B, B)`
and is `2B` narrower and shorter than the frame. -/
def specInsetByExactly (pc : PlacedClient) (borderWidth : Nat) : Prop :=
  pc.clientPos.x = borderWidth ∧ pc.clientPos.y = borderWidth ∧
    pc.clientPos.width + 2 * borderWidth = pc.framePos.width ∧
    pc.clientPos.height + 2 * borderWidth = pc.framePos.height

/-- Written from the claim on `get_relative_screen_idx`: the squared Euclidean
distance between two top-left corners.  Minimizing the Euclidean distance is
equivalent to minimizing its square, so the claim's selection rule is the
first-encountered minimizer of this key. -/
def sqDistKey (x1 y1 x2 y2 : Int) : Nat :=
  ((x2 - x1) ^ 2 + (y2 - y1) ^ 2).toNat

/-- Written from the claim on `get_relative_screen_idx`: among the screens
satisfying the direction's half-plane predicate, the one minimizing the exact
Euclidean distance between top-left corners, ties broken toward the earliest
index. -/
def ScreenManager.spec_relative_screen_idx (sm : ScreenManager) (d : Direction) :
    Option Nat :=
  let curr := sm.activeScreen.position
  let cands := (sm.screens.enum.map (fun p => (p.1, p.2.position))).filter
    (fun p => dirPred d p.2 curr)
  (minByKeyFirst (fun p => sqDistKey p.2.left p.2.top curr.left curr.top) cands).map
    (fun p => p.1)

/-- Written from the claim on `maybe_switch_screen`: the index of the last
screen in iteration order whose rectangle contains the point, if any. -/
def lastMatchingScreenIdx (sm : ScreenManager) (x y : Int) : Option Nat :=
  ((List.range sm.screens.length).filter
    (fun i => is_cursor_inside x y (sm.screens.getD i default).position)).getLast?

/-! Derived views of `get_relative_screen_idx`, used to state its
characterization: the candidate predicate and comparison key of screen `i`
against the active screen. -/

/-- Whether screen `i` passes the direction's half-plane filter of
`get_relative_screen_idx`. -/
def ScreenManager.candPred (sm : ScreenManager) (d : Direction) (i : Nat) : Bool :=
  dirPred d (sm.screens.getD i default).position sm.activeScreen.position

/-- The truncated-distance comparison key of screen `i` in
`get_relative_screen_idx`. -/
def ScreenManager.candKey (sm : ScreenManager) (i : Nat) : Nat :=
  distKey (sm.screens.getD i default).position.left
    (sm.screens.getD i default).position.top
    sm.activeScreen.position.left sm.activeScreen.position.top

/-- The per-direction potential used to bound the cross-screen recursion of
`focus_client`: a value that strictly decreases (for positive-size screens)
when the active screen hops to the screen returned by
`get_relative_screen_idx`. -/
def dirValue : Direction → Position → Int
  | .left, p => p.right
  | .right, p => -p.left
  | .up, p => p.bottom
  | .down, p => -p.top

/-- Number of screens whose `dirValue` is strictly below the active screen's:
the termination measure of the cross-screen recursion. -/
def hopMeasure (sm : ScreenManager) (d : Direction) : Nat :=
  ((Finset.range sm.screens.length).filter
    (fun i => dirValue d (sm.screens.getD i default).position <
      dirValue d sm.activeScreen.position)).card

/-! Concrete states used by closed theorems (counterexamples, failing inputs
and witnesses). -/

/-- A screen with one workspace holding the given clients and focus. -/
def mkScreen (x y : Int) (w h : Nat) (cs : List Window) (foc : Option Window) :
    Screen :=
  ⟨⟨x, y, w, h⟩, 0, [⟨0, cs, foc⟩], 0, 0, 0, 0⟩

/-- Failing input for the `when_empty` claim: one 800×600 screen whose
workspace holds client 5 but has no focused client. -/
def smPanic : ScreenManager :=
  ⟨[mkScreen 0 0 800 600 [5] none], [(5, ⟨5, 6, 0, true⟩)], 0, ⟨false, 2, 1⟩⟩

/-- Counterexample input for the distance-minimization claim: the active
screen at the origin and two candidates to its left whose truncated keys
coincide (both `⌊1000·d⌋ = 500000`) while their exact distances differ
(`√250001 > √250000`); the farther candidate comes first. -/
def smKey : ScreenManager :=
  ⟨[mkScreen 0 0 100 100 [] none, mkScreen (-1) 500 1 1 [] none,
    mkScreen (-500) 0 500 100 [] none], [], 0, ⟨false, 2, 1⟩⟩

/-- A single zero-sized screen: it satisfies every direction's half-plane
predicate against itself, so `get_relative_screen_idx` returns it. -/
def smSingleZero : ScreenManager :=
  ⟨[mkScreen 0 0 0 0 [] none], [], 0, ⟨false, 2, 1⟩⟩

/-- Counterexample input for the termination claim: a single zero-width
screen is its own `Left` neighbor, so the cross-screen recursion of
`focus_client` revisits the same state forever. -/
def smLoop : ScreenManager :=
  ⟨[mkScreen 0 0 0 100 [7] (some 7)], [(7, ⟨7, 8, 0, true⟩)], 0, ⟨false, 2, 1⟩⟩

/-- Witness input for the termination bound: one positive-size screen with an
empty workspace. -/
def smTermW : ScreenManager :=
  ⟨[mkScreen 0 0 1920 1080 [] none], [], 0, ⟨false, 2, 1⟩⟩

/-- Witness input for the `close_focused_client` scenario: client order
`[1, 2, 3]` with focus on 2, all three mapped. -/
def smABC : ScreenManager :=
  ⟨[mkScreen 0 0 1920 1080 [1, 2, 3] (some 2)],
    [(1, ⟨1, 10, 0, true⟩), (2, ⟨2, 20, 0, true⟩), (3, ⟨3, 30, 0, true⟩)],
    0, ⟨false, 2, 1⟩⟩

/-- Witness input for `create_client`: a workspace already holding client 1
(focused), with the focus-new-clients flag disabled. -/
def smCreate : ScreenManager :=
  ⟨[mkScreen 0 0 1920 1080 [1] (some 1)], [(1, ⟨1, 10, 0, true⟩)], 0,
    ⟨false, 2, 1⟩⟩

/-- Witness input for `close_focused_client` with no focused client. -/
def smNoFocus : ScreenManager :=
  ⟨[mkScreen 0 0 1920 1080 [4] none], [(4, ⟨4, 40, 0, true⟩)], 0, ⟨false, 2, 1⟩⟩

/-- Witness input for the relative-screen characterization: the two-monitor
arrangement with the active screen at `(1920, 0)` and a second screen to its
left at the origin. -/
def smTwoMon : ScreenManager :=
  ⟨[mkScreen 1920 0 1920 1080 [] none, mkScreen 0 0 1920 1080 [] none], [], 0,
    ⟨false, 2, 1⟩⟩

/-- Witness input for the cross-screen `move_client` step: the focused client
2 sits first on the active screen at `(1920, 0)`; a second screen lies to the
left with client 9 on its active workspace. -/
def smMove : ScreenManager :=
  ⟨[mkScreen 1920 0 1920 1080 [2, 3] (some 2), mkScreen 0 0 1920 1080 [9] (some 9)],
    [(2, ⟨2, 20, 0, true⟩), (3, ⟨3, 30, 0, true⟩), (9, ⟨9, 90, 0, true⟩)],
    0, ⟨false, 2, 1⟩⟩

/-- Witness input for `maybe_switch_screen`: two side-by-side monitors. -/
def smSwitch : ScreenManager :=
  ⟨[mkScreen 0 0 1920 1080 [] none, mkScreen 1920 0 1920 1080 [] none], [], 0,
    ⟨false, 2, 1⟩⟩

/-! ### Helper lemmas -/

theorem sqrtAux_spec (n : Nat) : ∀ fuel lo hi, lo * lo ≤ n → n < hi * hi →
    hi - lo ≤ 2 ^ fuel →
    sqrtAux n fuel lo hi * sqrtAux n fuel lo hi ≤ n ∧
      n < (sqrtAux n fuel lo hi + 1) * (sqrtAux n fuel lo hi + 1) := by
  intro fuel
  induction fuel with
  | zero =>
    intro lo hi hlo hhi hgap
    simp only [pow_zero] at hgap
    simp only [sqrtAux]
    refine ⟨hlo, ?_⟩
    have h1 : hi ≤ lo + 1 := by omega
    calc n < hi * hi := hhi
      _ ≤ (lo + 1) * (lo + 1) := Nat.mul_le_mul h1 h1
  | succ fuel ih =>
    intro lo hi hlo hhi hgap
    simp only [sqrtAux]
    by_cases h1 : hi ≤ lo + 1
    · simp only [h1, if_true]
      refine ⟨hlo, ?_⟩
      calc n < hi * hi := hhi
        _ ≤ (lo + 1) * (lo + 1) := Nat.mul_le_mul h1 h1
    · simp only [h1, if_false]
      have hpow : (2 : Nat) ^ (fuel + 1) = 2 * 2 ^ fuel := by ring
      by_cases h2 : ((lo + hi) / 2) * ((lo + hi) / 2) ≤ n
      · simp only [h2, if_true]
        exact ih ((lo + hi) / 2) hi h2 hhi (by omega)
      · simp only [h2, if_false]
        exact ih lo ((lo + hi) / 2) hlo (by omega) (by omega)

theorem isqrt_spec (n : Nat) :
    isqrt n * isqrt n ≤ n ∧ n < (isqrt n + 1) * (isqrt n + 1) := by
  have h1 : n < (n + 1) * (n + 1) := by nlinarith
  have h2 : n + 1 - 0 ≤ 2 ^ (n + 2) := by
    have := Nat.lt_two_pow (n + 2)
    omega
  exact sqrtAux_spec n (n + 2) 0 (n + 1) (by omega) h1 h2

/-- The executable square root agrees with `Nat.sqrt`, so `distKey` is indeed
the floor of `1000 ·` the Euclidean distance. -/
theorem isqrt_eq_sqrt (n : Nat) : isqrt n = Nat.sqrt n := by
  obtain ⟨h1, h2⟩ := isqrt_spec n
  have ha : isqrt n ≤ Nat.sqrt n := Nat.le_sqrt.mpr h1
  have hb : Nat.sqrt n < isqrt n + 1 := Nat.sqrt_lt.mpr h2
  omega

theorem lookup_cons (q a : Window) (b : Client) (t : ClientMap) :
    List.lookup q ((a, b) :: t) = if q = a then some b else List.lookup q t := by
  by_cases h : q = a
  · simp [List.lookup, h]
  · have hb : (q == a) = false := by simpa using h
    simp [List.lookup, hb, h]

theorem lookup_filter_self (m : ClientMap) (k : Window) :
    (m.filter (fun e => e.1 ≠ k)).lookup k = none := by
  induction m with
  | nil => rfl
  | cons e t ih =>
    obtain ⟨a, b⟩ := e
    by_cases ha : a = k
    · rw [List.filter_cons, if_neg (by simp [ha])]
      exact ih
    · rw [List.filter_cons, if_pos (by simp [ha]), lookup_cons,
        if_neg (fun hh => ha hh.symm)]
      exact ih

theorem lookup_filter_ne (m : ClientMap) (k q : Window) (h : q ≠ k) :
    (m.filter (fun e => e.1 ≠ k)).lookup q = m.lookup q := by
  induction m with
  | nil => rfl
  | cons e t ih =>
    obtain ⟨a, b⟩ := e
    by_cases ha : a = k
    · rw [List.filter_cons, if_neg (by simp [ha]), lookup_cons,
        if_neg (by rw [ha] at *; exact h)]
      exact ih
    · rw [List.filter_cons, if_pos (by simp [ha]), lookup_cons, lookup_cons]
      by_cases hqa : q = a
      · simp [hqa]
      · rw [if_neg hqa, if_neg hqa]
        exact ih

theorem mapGet_mapRemove_self (m : ClientMap) (k : Window) :
    mapGet (mapRemove m k) k = none := lookup_filter_self m k

theorem mapGet_mapRemove_ne (m : ClientMap) (k q : Window) (h : q ≠ k) :
    mapGet (mapRemove m k) q = mapGet m q := lookup_filter_ne m k q h

theorem mapGet_mapInsert_self (m : ClientMap) (k : Window) (v : Client) :
    mapGet (mapInsert m k v) k = some v := by
  unfold mapGet mapInsert
  rw [List.lookup_append, lookup_filter_self]
  simp [lookup_cons]

theorem mapGet_mapInsert_ne (m : ClientMap) (k q : Window) (v : Client) (h : q ≠ k) :
    mapGet (mapInsert m k v) q = mapGet m q := by
  unfold mapGet mapInsert
  rw [List.lookup_append, lookup_filter_ne m k q h]
  cases hq : m.lookup q with
  | some b => rfl
  | none => simp [lookup_cons, h]

theorem getD_set_self {α : Type} [Inhabited α] (l : List α) (i : Nat) (a : α)
    (h : i < l.length) : (l.set i a).getD i default = a := by
  simp [List.getD_eq_getElem?_getD, List.getElem?_set_self, h]

theorem getD_set_ne {α : Type} [Inhabited α] (l : List α) (i j : Nat) (a : α)
    (h : i ≠ j) : (l.set i a).getD j default = l.getD j default := by
  simp [List.getD_eq_getElem?_getD, List.getElem?_set_ne, h]

theorem enumFrom_eq_range_map {α : Type} [Inhabited α] (l : List α) :
    ∀ k, List.enumFrom k l =
      (List.range l.length).map (fun i => (k + i, l.getD i default)) := by
  induction l with
  | nil => intro k; rfl
  | cons a t ih =>
    intro k
    rw [List.enumFrom_cons, ih (k + 1)]
    rw [List.length_cons, List.range_succ_eq_map, List.map_cons, List.map_map]
    refine congrArg₂ _ (by simp) ?_
    apply List.map_congr_left
    intro i _
    simp [Function.comp, Nat.succ_eq_add_one]
    omega

theorem enum_eq_range_map {α : Type} [Inhabited α] (l : List α) :
    l.enum = (List.range l.length).map (fun i => (i, l.getD i default)) := by
  rw [List.enum, enumFrom_eq_range_map]
  simp

theorem minByKeyFirst_eq_none {α : Type} (key : α → Nat) (l : List α) :
    minByKeyFirst key l = none ↔ l = [] := by
  cases l with
  | nil => simp [minByKeyFirst]
  | cons x xs =>
    simp only [minByKeyFirst]
    cases minByKeyFirst key xs with
    | none => simp
    | some y =>
      by_cases h : key x ≤ key y <;> simp [h]

/-- The first-minimum characterization of `minByKeyFirst` (Rust
`Iterator::min_by_key`): the returned element splits the list into a strictly
larger-keyed prefix and a no-smaller-keyed suffix. -/
theorem minByKeyFirst_split {α : Type} (key : α → Nat) (l : List α) (x : α)
    (h : minByKeyFirst key l = some x) :
    ∃ l₁ l₂, l = l₁ ++ x :: l₂ ∧ (∀ y ∈ l₁, key x < key y) ∧
      ∀ y ∈ l₂, key x ≤ key y := by
  induction l generalizing x with
  | nil => simp [minByKeyFirst] at h
  | cons a t ih =>
    simp only [minByKeyFirst] at h
    cases ht : minByKeyFirst key t with
    | none =>
      rw [ht] at h
      obtain rfl : a = x := by simpa using h
      obtain rfl : t = [] := (minByKeyFirst_eq_none key t).mp ht
      exact ⟨[], [], rfl, by simp, by simp⟩
    | some y =>
      rw [ht] at h
      dsimp only at h
      obtain ⟨t₁, t₂, rfl, h₁, h₂⟩ := ih y ht
      by_cases hk : key a ≤ key y
      · rw [if_pos hk] at h
        obtain rfl : a = x := by simpa using h
        refine ⟨[], t₁ ++ y :: t₂, rfl, by simp, ?_⟩
        intro z hz
        rcases List.mem_append.mp hz with hz | hz
        · exact le_trans hk (le_of_lt (h₁ z hz))
        · rcases List.mem_cons.mp hz with rfl | hz
          · exact hk
          · exact le_trans hk (h₂ z hz)
      · rw [if_neg hk] at h
        obtain rfl : y = x := by simpa using h
        exact ⟨a :: t₁, t₂, rfl, by
          intro z hz
          rcases List.mem_cons.mp hz with rfl | hz
          · omega
          · exact h₁ z hz, h₂⟩

theorem minByKeyFirst_map {α β : Type} (key : β → Nat) (g : α → β) (l : List α) :
    minByKeyFirst key (l.map g) = (minByKeyFirst (fun a => key (g a)) l).map g := by
  induction l with
  | nil => rfl
  | cons a t ih =>
    simp only [List.map_cons, minByKeyFirst, ih]
    cases minByKeyFirst (fun a => key (g a)) t with
    | none => rfl
    | some y =>
      by_cases h : key (g a) ≤ key (g y) <;> simp [h]

/-- A fold that overwrites the accumulator on every match computes the last
match (the shape of `maybe_switch_screen`'s `for_each`). -/
theorem foldl_if_last {β γ : Type} (q : β → Bool) (f : β → γ) :
    ∀ (l : List β) (a : γ),
      List.foldl (fun acc p => if q p then f p else acc) a l =
        ((l.filter q).getLast?.map f).getD a := by
  intro l
  induction l with
  | nil => intro a; rfl
  | cons b t ih =>
    intro a
    rw [List.foldl_cons, ih, List.filter_cons]
    by_cases hb : q b
    · rw [if_pos hb, if_pos hb]
      cases hft : t.filter q with
      | nil => simp [hft]
      | cons c r =>
        rw [List.getLast?_cons_cons]
        cases hcr : (c :: r).getLast? with
        | none => simp at hcr
        | some z => simp
    · simp only [hb, Bool.false_eq_true, if_false]


theorem claim1_clients_without_focus_panics :
    ∀ (e : Screen → Window → Screen) (c : Screen → Window → Bool)
      (d : Direction) (s : Screen → Window → Screen),
      TallLayout.focus_client 2 smPanic e c d s = .panicked ∧
        TallLayout.move_client smPanic e c d s = none :=
  fun _ _ _ _ => ⟨rfl, rfl⟩

/-- Claim C2 counterexample: at a 100×100 screen with border width 5 and two
visible clients, neither the main client (content `(0,0,45,95)` against frame
`40×90`) nor the side client (content equal to its frame) has its content
inset by exactly B on each edge of the frame. -/
theorem claim2_counterexample :
    ¬ specInsetByExactly
        (TallLayout.display_main_client ⟨0, 0, 100, 100⟩
          (TallLayout.mainWidth 100 2) 5) 5 ∧
    ¬ specInsetByExactly
        (TallLayout.display_side_client ⟨0, 0, 100, 100⟩ 1 2
          (TallLayout.mainWidth 100 2) 5) 5 := by
  constructor
  · intro h
    obtain ⟨h1, -⟩ := h
    revert h1
    decide
  · intro h
    obtain ⟨h1, -⟩ := h
    revert h1
    decide

/-- Claim C8 counterexample: on a single zero-width screen whose focused
client sits at the Left boundary, the screen is its own Left neighbor, so the
cross-screen recursion of `focus_client` revisits the same state and the
number of cross-screen steps exceeds the number of screens (fuel
`screens.length + 1` is exhausted; the source recursion never terminates). -/
theorem claim8_counterexample :
    TallLayout.focus_client (smLoop.screens.length + 1) smLoop
      TallLayout.focus_last TallLayout.is_first .left TallLayout.focus_prev =
      .outOfFuel := by decide

/-- Claim C6 counterexample: in `smKey` the code returns index 1 (distance
`√250001`) although index 2 is strictly nearer (distance `√250000`), because
both truncated keys equal 500000 and `min_by_key` keeps the first; and a
single zero-sized screen yields itself instead of none for direction Left. -/
theorem claim6_counterexample :
    smKey.get_relative_screen_idx .left = some 1 ∧
    smKey.spec_relative_screen_idx .left = some 2 ∧
    sqDistKey (-500) 0 0 0 < sqDistKey (-1) 500 0 0 ∧
    smSingleZero.get_relative_screen_idx .left = some 0 := by decide


/-- Claim C2 as amended: in every placed client of `display_clients` the
content window sits at frame-local `(0, 0)` (no inset); the main client's
content is exactly `B` wider and taller than its frame, and every side
client's content coincides with its frame size.  The subtraction hypotheses
exclude the `u32` underflow panics of the source. -/
theorem claim2_content_geometry (p : Position) (borderWidth n i : Nat)
    (hn : 1 ≤ n) (hi : i < n)
    (hmB : 2 * borderWidth ≤ TallLayout.mainWidth p.width n)
    (hhB : 2 * borderWidth ≤ p.height)
    (hsB : 2 * borderWidth ≤ p.width - TallLayout.mainWidth p.width n)
    (hcB : 2 ≤ n → 2 * borderWidth ≤ divCeil p.height (n - 1)) :
    ∃ pc, (TallLayout.display_clients_geometry p borderWidth n)[i]? = some pc ∧
      pc.clientPos.x = 0 ∧ pc.clientPos.y = 0 ∧
      (i = 0 → pc.clientPos.width = pc.framePos.width + borderWidth ∧
        pc.clientPos.height = pc.framePos.height + borderWidth) ∧
      (1 ≤ i → pc.clientPos.width = pc.framePos.width ∧
        pc.clientPos.height = pc.framePos.height) := by
  unfold TallLayout.display_clients_geometry
  rw [List.getElem?_map, List.getElem?_range hi]
  by_cases h0 : i = 0
  · subst h0
    refine ⟨TallLayout.display_main_client p (TallLayout.mainWidth p.width n)
      borderWidth, by simp, rfl, rfl, fun _ => ?_, by omega⟩
    unfold TallLayout.display_main_client
    exact ⟨by simp only []; omega, by simp only []; omega⟩
  · have hb : (i == 0) = false := by simp [h0]
    refine ⟨TallLayout.display_side_client p i n (TallLayout.mainWidth p.width n)
      borderWidth, by simp [hb, h0], rfl, rfl, fun hx => absurd hx h0,
      fun _ => ⟨rfl, rfl⟩⟩

/-- Witness for the claim-2 amended theorem at a 100×100 screen, border 5,
three clients, index 0. -/
theorem claim2_witness :
    ∃ pc, (TallLayout.display_clients_geometry ⟨0, 0, 100, 100⟩ 5 3)[0]? = some pc ∧
      pc.clientPos.x = 0 ∧ pc.clientPos.y = 0 ∧
      (0 = 0 → pc.clientPos.width = pc.framePos.width + 5 ∧
        pc.clientPos.height = pc.framePos.height + 5) ∧
      (1 ≤ 0 → pc.clientPos.width = pc.framePos.width ∧
        pc.clientPos.height = pc.framePos.height) :=
  claim2_content_geometry ⟨0, 0, 100, 100⟩ 5 3 0 (by decide) (by decide)
    (by decide) (by decide) (by decide) (by decide)

/-- Claim C3: the main column width plus the side column width equals the
screen width exactly; and for `n ≥ 2` every scanline `y` of the screen's
vertical extent lies in exactly one side slice (slice `k` starting at the
frame offset computed by `display_side_client` for index `k+1`, of height
`ceil(H / (n-1))`) — coverage with no gaps and no overlaps, the last slice
possibly cut short by the screen edge. -/
theorem claim3_column_and_slice_cover (p : Position) (borderWidth n : Nat)
    (hn : 1 ≤ n) :
    TallLayout.mainWidth p.width n + (p.width - TallLayout.mainWidth p.width n) =
      p.width ∧
    (2 ≤ n → ∀ y : Int, p.y ≤ y → y < p.y + (p.height : Int) →
      ∃! k : Nat, k < n - 1 ∧
        (TallLayout.display_side_client p (k + 1) n (TallLayout.mainWidth p.width n)
          borderWidth).framePos.y ≤ y ∧
        y < (TallLayout.display_side_client p (k + 1) n (TallLayout.mainWidth p.width n)
          borderWidth).framePos.y + (divCeil p.height (n - 1) : Int)) := by
  constructor
  · unfold TallLayout.mainWidth
    by_cases hone : n == 1
    · simp [hone]
    · have hd := Nat.div_le_self p.width 2
      simp [hone]
      omega
  · intro h2n y hy1 hy2
    have hm : 0 < n - 1 := by omega
    obtain ⟨t, hty, htH⟩ : ∃ t : Nat, y = p.y + (t : Int) ∧ t < p.height :=
      ⟨(y - p.y).toNat, by omega, by omega⟩
    have hfy : ∀ k : Nat,
        (TallLayout.display_side_client p (k + 1) n (TallLayout.mainWidth p.width n)
          borderWidth).framePos.y =
          p.y + ((divCeil p.height (n - 1) * k : Nat) : Int) := by
      intro k
      simp [TallLayout.display_side_client]
    have hH1 : 1 ≤ p.height := by omega
    have hdiv : 0 < divCeil p.height (n - 1) := by
      have h1 : 1 ≤ (p.height + (n - 1) - 1) / (n - 1) :=
        (Nat.le_div_iff_mul_le hm).mpr (by omega)
      unfold divCeil
      omega
    have hcov : p.height ≤ (n - 1) * divCeil p.height (n - 1) := by
      have hmod := Nat.div_add_mod (p.height + (n - 1) - 1) (n - 1)
      have hlt := Nat.mod_lt (p.height + (n - 1) - 1) hm
      unfold divCeil
      omega
    set q := divCeil p.height (n - 1) with hq
    have hklt : t / q < n - 1 := by
      rw [Nat.div_lt_iff_lt_mul hdiv]
      calc t < p.height := htH
        _ ≤ (n - 1) * q := hcov
    have hmodt := Nat.div_add_mod t q
    have hltt := Nat.mod_lt t hdiv
    have hlow : q * (t / q) ≤ t := by omega
    have hhigh : t < q * (t / q) + q := by omega
    refine ⟨t / q, ⟨hklt, ?_, ?_⟩, ?_⟩
    · rw [hfy, hty]
      have : q * (t / q) = divCeil p.height (n - 1) * (t / q) := by rw [hq]
      omega
    · rw [hfy, hty]
      have : q * (t / q) = divCeil p.height (n - 1) * (t / q) := by rw [hq]
      omega
    · intro k' hk'
      obtain ⟨hk1', hk2', hk3'⟩ := hk'
      rw [hfy, hty] at hk2' hk3'
      have h2 : q * k' ≤ t := by omega
      have h3 : t < q * k' + q := by omega
      have hc1 : k' * q = q * k' := Nat.mul_comm _ _
      have hc2 : (k' + 1) * q = q * k' + q := by ring
      symm
      exact Nat.div_eq_of_lt_le (by omega) (by omega)

theorem modifyScreen_clients (sm : ScreenManager) (i : Nat) (f : Screen → Screen) :
    (sm.modifyScreen i f).clients = sm.clients := rfl

theorem modifyScreen_active (sm : ScreenManager) (i : Nat) (f : Screen → Screen) :
    (sm.modifyScreen i f).active_screen = sm.active_screen := rfl

theorem modifyScreen_getD_self (sm : ScreenManager) (i : Nat) (f : Screen → Screen)
    (h : i < sm.screens.length) :
    (sm.modifyScreen i f).screens.getD i default = f (sm.screens.getD i default) := by
  unfold ScreenManager.modifyScreen
  exact getD_set_self _ _ _ h

theorem modifyScreen_getD_ne (sm : ScreenManager) (i j : Nat) (f : Screen → Screen)
    (h : i ≠ j) :
    (sm.modifyScreen i f).screens.getD j default = sm.screens.getD j default := by
  unfold ScreenManager.modifyScreen
  exact getD_set_ne _ _ _ _ h

theorem modifyActiveWorkspace_activeWorkspace (s : Screen) (f : Workspace → Workspace)
    (h : s.active_workspace < s.workspaces.length) :
    (s.modifyActiveWorkspace f).activeWorkspace = f s.activeWorkspace := by
  unfold Screen.modifyActiveWorkspace Screen.activeWorkspace
  exact getD_set_self _ _ _ h

/-- Claim C9: `close_focused_client` always returns `Ok`, and when the
active screen's active workspace has no focused client it returns `Ok(None)`
leaving the entire `ScreenManager` state unchanged. -/
theorem claim9_close_focused_total (sm : ScreenManager)
    (hact : sm.active_screen < sm.screens.length) :
    (∃ v, (sm.close_focused_client).1 = Except.ok v) ∧
    (sm.activeScreen.focused_client = none →
      sm.close_focused_client = (Except.ok none, sm)) := by
  constructor
  · unfold ScreenManager.close_focused_client
    cases sm.activeScreen.focused_client <;> simp
  · intro h
    unfold ScreenManager.close_focused_client
    rw [h]

/-- Witness for the claim-9 theorem at a concrete state with no focused
client. -/
theorem claim9_witness :
    smNoFocus.close_focused_client = (Except.ok none, smNoFocus) :=
  (claim9_close_focused_total smNoFocus (by decide)).2 (by decide)

/-- Claim C4: on client order `[a, b, c]` with focus on `b`,
`close_focused_client` returns the pre-removal map record of `b`, leaves
client order `[a, c]` with new focus `a` (the new first client), removes `b`
from the map and keeps every other map entry. -/
theorem claim4_close_focused_scenario (sm : ScreenManager) (a b c : Window)
    (cb : Client)
    (hact : sm.active_screen < sm.screens.length)
    (hwact : sm.activeScreen.active_workspace < sm.activeScreen.workspaces.length)
    (hcl : sm.activeScreen.activeWorkspace.clients = [a, b, c])
    (hfoc : sm.activeScreen.activeWorkspace.focused_client = some b)
    (hab : a ≠ b) (hcb : c ≠ b)
    (hmap : mapGet sm.clients b = some cb) :
    (sm.close_focused_client).1 = Except.ok (some cb) ∧
    (sm.close_focused_client).2.activeScreen.activeWorkspace.clients = [a, c] ∧
    (sm.close_focused_client).2.activeScreen.activeWorkspace.focused_client = some a ∧
    mapGet (sm.close_focused_client).2.clients b = none ∧
    (∀ q, q ≠ b → mapGet (sm.close_focused_client).2.clients q = mapGet sm.clients q) := by
  have hfc : sm.activeScreen.focused_client = some b := hfoc
  unfold ScreenManager.close_focused_client
  rw [hfc]
  dsimp only
  have hws : (sm.modifyScreen sm.active_screen (fun sc =>
      sc.modifyActiveWorkspace (fun ws =>
        (ws.remove_client b).set_focused_client
          (ws.remove_client b).clients.head?))).screens.getD sm.active_screen default =
      (sm.activeScreen.modifyActiveWorkspace (fun ws =>
        (ws.remove_client b).set_focused_client (ws.remove_client b).clients.head?)) :=
    modifyScreen_getD_self sm _ _ hact
  have hwact' := hwact
  have hwsws := modifyActiveWorkspace_activeWorkspace sm.activeScreen
    (fun ws => (ws.remove_client b).set_focused_client (ws.remove_client b).clients.head?)
    hwact
  have hrm : (sm.activeScreen.activeWorkspace.remove_client b).clients = [a, c] := by
    unfold Workspace.remove_client
    rw [hcl]
    simp [List.filter_cons, hab, hcb]
  refine ⟨by rw [hmap], ?_, ?_, ?_, ?_⟩
  · unfold ScreenManager.activeScreen
    dsimp only
    rw [modifyScreen_active, hws, hwsws]
    exact hrm
  · unfold ScreenManager.activeScreen
    dsimp only
    rw [modifyScreen_active, hws, hwsws]
    unfold Workspace.set_focused_client
    simp [hrm]
  · rw [modifyScreen_clients]
    exact mapGet_mapRemove_self _ _
  · intro q hq
    rw [modifyScreen_clients]
    exact mapGet_mapRemove_ne _ _ _ hq

/-- Witness for the claim-4 theorem on the `[1, 2, 3]`-with-focus-2 state. -/
theorem claim4_witness :
    (smABC.close_focused_client).1 = Except.ok (some ⟨2, 20, 0, true⟩) :=
  (claim4_close_focused_scenario smABC 1 2 3 ⟨2, 20, 0, true⟩ (by decide)
    (by decide) (by decide) (by decide) (by decide) (by decide) (by decide)).1

/-- Claim C5: `create_client` registers the pair in the map, appends the
frame to the active screen's active workspace, and focuses it iff the
focus-new-clients flag is set or the workspace now has exactly one client;
with the flag disabled an existing focus on a previously non-empty workspace
is unchanged, and a previously empty workspace ends up focusing the new
client. -/
theorem claim5_create_client (sm : ScreenManager) (fr w : Window)
    (hact : sm.active_screen < sm.screens.length)
    (hwact : sm.activeScreen.active_workspace < sm.activeScreen.workspaces.length) :
    mapGet (sm.create_client fr w).clients fr =
      some ⟨fr, w, sm.activeScreen.activeWorkspace.id, true⟩ ∧
    (∀ q, q ≠ fr → mapGet (sm.create_client fr w).clients q = mapGet sm.clients q) ∧
    (sm.create_client fr w).activeScreen.activeWorkspace.clients =
      sm.activeScreen.activeWorkspace.clients ++ [fr] ∧
    (sm.create_client fr w).activeScreen.activeWorkspace.focused_client =
      (if sm.config.focus_new_clients ||
          (sm.activeScreen.activeWorkspace.clients ++ [fr]).length == 1 then some fr
        else sm.activeScreen.activeWorkspace.focused_client) ∧
    (sm.config.focus_new_clients = false →
      sm.activeScreen.activeWorkspace.clients ≠ [] →
      (sm.create_client fr w).activeScreen.activeWorkspace.focused_client =
        sm.activeScreen.activeWorkspace.focused_client) ∧
    (sm.activeScreen.activeWorkspace.clients = [] →
      (sm.create_client fr w).activeScreen.activeWorkspace.focused_client = some fr) := by
  have hmap1 : (sm.create_client fr w).clients =
      mapInsert sm.clients fr ⟨fr, w, sm.activeScreen.activeWorkspace.id, true⟩ := rfl
  have key : (sm.create_client fr w).activeScreen.activeWorkspace =
      (if sm.config.focus_new_clients ||
          (sm.activeScreen.activeWorkspace.new_client fr).clients.length == 1 then
        (sm.activeScreen.activeWorkspace.new_client fr).set_focused_client (some fr)
      else sm.activeScreen.activeWorkspace.new_client fr) := by
    unfold ScreenManager.create_client ScreenManager.activeScreen
      ScreenManager.modifyScreen
    dsimp only
    rw [getD_set_self _ _ _ hact]
    exact modifyActiveWorkspace_activeWorkspace _ _ hwact
  have hlen : (sm.activeScreen.activeWorkspace.new_client fr).clients =
      sm.activeScreen.activeWorkspace.clients ++ [fr] := rfl
  refine ⟨?_, ?_, ?_, ?_, ?_, ?_⟩
  · rw [hmap1]
    exact mapGet_mapInsert_self _ _ _
  · intro q hq
    rw [hmap1]
    exact mapGet_mapInsert_ne _ _ _ _ hq
  · rw [key]
    by_cases hc : (sm.config.focus_new_clients ||
        (sm.activeScreen.activeWorkspace.new_client fr).clients.length == 1) = true
    · rw [if_pos hc]
      exact hlen
    · rw [if_neg hc]
      exact hlen
  · rw [key, hlen]
    by_cases hc : (sm.config.focus_new_clients ||
        (sm.activeScreen.activeWorkspace.clients ++ [fr]).length == 1) = true
    · rw [if_pos hc, if_pos hc]
      rfl
    · rw [if_neg hc, if_neg hc]
      rfl
  · intro hflag hne
    rw [key, hlen]
    have hc : (sm.config.focus_new_clients ||
        (sm.activeScreen.activeWorkspace.clients ++ [fr]).length == 1) = false := by
      rw [hflag]
      cases hcl : sm.activeScreen.activeWorkspace.clients with
      | nil => exact absurd hcl hne
      | cons x xs => simp
    rw [if_neg (by rw [hc]; exact fun h => nomatch h)]
    rfl
  · intro hempty
    rw [key, hlen, hempty]
    rw [if_pos (by simp)]
    rfl

/-- Witness for the claim-5 theorem: flag disabled, non-empty workspace,
focus unchanged. -/
theorem claim5_witness :
    (smCreate.create_client 6 60).activeScreen.activeWorkspace.focused_client =
      smCreate.activeScreen.activeWorkspace.focused_client :=
  ((claim5_create_client smCreate 6 60 (by decide) (by decide)).2.2.2.2.1)
    (by decide) (by decide)

theorem getD_mem {α : Type} [Inhabited α] (l : List α) (i : Nat) (h : i < l.length) :
    l.getD i default ∈ l := by
  rw [List.getD_eq_getElem?_getD, List.getElem?_eq_getElem h]
  exact List.getElem_mem h

theorem get_relative_eq (sm : ScreenManager) (d : Direction) :
    sm.get_relative_screen_idx d =
      minByKeyFirst (fun i => sm.candKey i)
        ((List.range sm.screens.length).filter (fun i => sm.candPred d i)) := by
  unfold ScreenManager.get_relative_screen_idx
  dsimp only
  rw [enum_eq_range_map, List.map_map, List.filter_map, minByKeyFirst_map,
    Option.map_map]
  unfold ScreenManager.candKey ScreenManager.candPred
  simp only [Function.comp_def]
  simp

theorem get_relative_none_iff (sm : ScreenManager) (d : Direction) :
    sm.get_relative_screen_idx d = none ↔
      ∀ i, i < sm.screens.length → sm.candPred d i = false := by
  rw [get_relative_eq, minByKeyFirst_eq_none, List.filter_eq_nil_iff]
  constructor
  · intro h i hi
    have := h i (List.mem_range.mpr hi)
    simpa using this
  · intro h i hi
    have := h i (List.mem_range.mp hi)
    simp [this]

theorem get_relative_some_char (sm : ScreenManager) (d : Direction) (j : Nat)
    (h : sm.get_relative_screen_idx d = some j) :
    j < sm.screens.length ∧ sm.candPred d j = true ∧
      (∀ i, i < sm.screens.length → sm.candPred d i = true →
        sm.candKey j ≤ sm.candKey i) ∧
      (∀ i, i < j → sm.candPred d i = true → sm.candKey j < sm.candKey i) := by
  rw [get_relative_eq] at h
  obtain ⟨l₁, l₂, hsplit, h₁, h₂⟩ := minByKeyFirst_split _ _ _ h
  have hpw : ((List.range sm.screens.length).filter
      (fun i => sm.candPred d i)).Pairwise (· < ·) :=
    (List.pairwise_lt_range _).filter _
  rw [hsplit] at hpw
  rw [List.pairwise_append] at hpw
  obtain ⟨hpw₁, hpw₂, hpw₃⟩ := hpw
  have hjmem : j ∈ (List.range sm.screens.length).filter (fun i => sm.candPred d i) := by
    rw [hsplit]
    exact List.mem_append.mpr (Or.inr (List.mem_cons_self _ _))
  have hjlt : j < sm.screens.length := by
    have := List.mem_filter.mp hjmem
    exact List.mem_range.mp this.1
  have hjpred : sm.candPred d j = true := by
    have := List.mem_filter.mp hjmem
    simpa using this.2
  refine ⟨hjlt, hjpred, ?_, ?_⟩
  · intro i hi hpred
    have himem : i ∈ (List.range sm.screens.length).filter (fun i => sm.candPred d i) := by
      rw [List.mem_filter]
      exact ⟨List.mem_range.mpr hi, by simp [hpred]⟩
    rw [hsplit] at himem
    rcases List.mem_append.mp himem with hmem | hmem
    · exact le_of_lt (h₁ i hmem)
    · rcases List.mem_cons.mp hmem with rfl | hmem
      · exact le_refl _
      · exact h₂ i hmem
  · intro i hij hpred
    have himem : i ∈ (List.range sm.screens.length).filter (fun i => sm.candPred d i) := by
      rw [List.mem_filter]
      exact ⟨List.mem_range.mpr (lt_trans hij hjlt), by simp [hpred]⟩
    rw [hsplit] at himem
    rcases List.mem_append.mp himem with hmem | hmem
    · exact h₁ i hmem
    · rcases List.mem_cons.mp hmem with rfl | hmem
      · omega
      · have := (List.pairwise_cons.mp hpw₂).1 i hmem
        omega

/-- Claim C6 as amended: `get_relative_screen_idx` returns none iff no
screen satisfies the direction's half-plane predicate, and otherwise returns
an index satisfying the predicate that minimizes the millesimally-truncated
distance key `⌊1000·d⌋` between top-left corners (`candKey`), ties broken
toward the earliest index (every earlier passing index has a strictly larger
key). -/
theorem claim6_relative_screen_characterization (sm : ScreenManager) (d : Direction)
    (hact : sm.active_screen < sm.screens.length) :
    (sm.get_relative_screen_idx d = none ↔
      ∀ i, i < sm.screens.length → sm.candPred d i = false) ∧
    (∀ j, sm.get_relative_screen_idx d = some j →
      j < sm.screens.length ∧ sm.candPred d j = true ∧
        (∀ i, i < sm.screens.length → sm.candPred d i = true →
          sm.candKey j ≤ sm.candKey i) ∧
        (∀ i, i < j → sm.candPred d i = true → sm.candKey j < sm.candKey i)) :=
  ⟨get_relative_none_iff sm d, fun j h => get_relative_some_char sm d j h⟩

/-- Witness for the claim-6 amended theorem on a two-monitor state whose
Left query resolves to index 1. -/
theorem claim6_witness :
    1 < smTwoMon.screens.length ∧ smTwoMon.candPred Direction.left 1 = true ∧
      (∀ i, i < smTwoMon.screens.length → smTwoMon.candPred Direction.left i = true →
        smTwoMon.candKey 1 ≤ smTwoMon.candKey i) ∧
      (∀ i, i < 1 → smTwoMon.candPred Direction.left i = true →
        smTwoMon.candKey 1 < smTwoMon.candKey i) :=
  (claim6_relative_screen_characterization smTwoMon Direction.left (by decide)).2 1
    (by decide)

theorem dirValue_hop_lt (d : Direction) (cand act : Position)
    (hpred : dirPred d cand act = true) (hw : 0 < act.width) (hh : 0 < act.height) :
    dirValue d cand < dirValue d act := by
  cases d <;>
    simp only [dirPred, dirValue, Position.right, Position.left, Position.top,
      Position.bottom, decide_eq_true_eq, ge_iff_le] at hpred ⊢ <;> omega

theorem hopMeasure_hop (sm : ScreenManager) (d : Direction) (j : Nat)
    (hact : sm.active_screen < sm.screens.length)
    (hpos : ∀ s ∈ sm.screens, 0 < s.position.width ∧ 0 < s.position.height)
    (hrel : sm.get_relative_screen_idx d = some j) :
    hopMeasure (sm.set_active_screen j) d < hopMeasure sm d := by
  obtain ⟨hj, hpred, -, -⟩ := get_relative_some_char sm d j hrel
  obtain ⟨hw, hh⟩ := hpos _ (getD_mem sm.screens sm.active_screen hact)
  unfold ScreenManager.candPred at hpred
  have hkey : dirValue d (sm.screens.getD j default).position <
      dirValue d sm.activeScreen.position :=
    dirValue_hop_lt d _ _ hpred hw hh
  unfold hopMeasure ScreenManager.set_active_screen ScreenManager.activeScreen
  unfold ScreenManager.activeScreen at hkey
  dsimp only
  apply Finset.card_lt_card
  rw [Finset.ssubset_def]
  constructor
  · intro i hi
    rw [Finset.mem_filter] at hi ⊢
    exact ⟨hi.1, lt_trans hi.2 hkey⟩
  · intro hsub
    have hjin : j ∈ (Finset.range sm.screens.length).filter
        (fun i => dirValue d (sm.screens.getD i default).position <
          dirValue d (sm.screens.getD sm.active_screen default).position) := by
      rw [Finset.mem_filter]
      exact ⟨Finset.mem_range.mpr hj, hkey⟩
    have hmem := hsub hjin
    rw [Finset.mem_filter] at hmem
    exact lt_irrefl _ hmem.2

theorem focus_client_no_fuel_exhaustion (we : Screen → Window → Screen)
    (csc : Screen → Window → Bool) (d : Direction) (foc : Screen → Window → Screen) :
    ∀ (fuel : Nat) (sm : ScreenManager),
      sm.active_screen < sm.screens.length →
      (∀ s ∈ sm.screens, 0 < s.position.width ∧ 0 < s.position.height) →
      hopMeasure sm d < fuel →
      TallLayout.focus_client fuel sm we csc d foc ≠ TallLayout.ExecResult.outOfFuel := by
  intro fuel
  induction fuel with
  | zero => intro sm hact hpos hm; omega
  | succ fuel ih =>
    intro sm hact hpos hm
    rw [TallLayout.focus_client]
    dsimp only
    rw [if_neg (by omega : ¬sm.screens.length ≤ sm.active_screen)]
    by_cases he : (sm.screens.getD sm.active_screen default).activeWorkspace.clients.isEmpty = true
    · rw [if_pos he]
      exact fun h => nomatch h
    · rw [if_neg he]
      cases hfc : (sm.screens.getD sm.active_screen default).focused_client with
      | none => exact fun h => nomatch h
      | some c =>
        dsimp only
        rw [if_neg (by simp : ¬((some c : Option Window).isNone = true))]
        by_cases hcs : csc (sm.screens.getD sm.active_screen default) c = true
        · rw [if_pos hcs]
          cases hrel : sm.get_relative_screen_idx d with
          | none => exact fun h => nomatch h
          | some j =>
            obtain ⟨hj, -, -, -⟩ := get_relative_some_char sm d j hrel
            apply ih
            · exact hj
            · exact hpos
            · have := hopMeasure_hop sm d j hact hpos hrel
              omega
        · rw [if_neg hcs]
          exact fun h => nomatch h

/-- Claim C8 as amended: provided every screen has positive width and
height, `focus_client` terminates, taking at most `screens.length`
cross-screen steps: fuel `screens.length + 1` is never exhausted. -/
theorem claim8_bounded_hops (sm : ScreenManager) (we : Screen → Window → Screen)
    (csc : Screen → Window → Bool) (d : Direction) (foc : Screen → Window → Screen)
    (hact : sm.active_screen < sm.screens.length)
    (hpos : ∀ s ∈ sm.screens, 0 < s.position.width ∧ 0 < s.position.height) :
    TallLayout.focus_client (sm.screens.length + 1) sm we csc d foc ≠
      TallLayout.ExecResult.outOfFuel := by
  apply focus_client_no_fuel_exhaustion we csc d foc _ sm hact hpos
  have hle : hopMeasure sm d ≤ sm.screens.length := by
    unfold hopMeasure
    calc ((Finset.range sm.screens.length).filter _).card
        ≤ (Finset.range sm.screens.length).card := Finset.card_filter_le _ _
      _ = sm.screens.length := Finset.card_range _
  omega

/-- Witness for the claim-8 amended theorem on a single positive-size
screen. -/
theorem claim8_witness :
    TallLayout.focus_client (smTermW.screens.length + 1) smTermW TallLayout.focus_last
      TallLayout.is_first Direction.left TallLayout.focus_prev ≠
      TallLayout.ExecResult.outOfFuel :=
  claim8_bounded_hops smTermW TallLayout.focus_last TallLayout.is_first Direction.left
    TallLayout.focus_prev (by decide) (by decide)

/-- Claim C7: `maybe_switch_screen` touches only the active-screen index,
setting it to the last screen in iteration order whose rectangle contains the
point under the half-open containment test; when no screen contains the point
the whole state is unchanged; and a point on a screen's right or bottom edge
is never inside that screen. -/
theorem claim7_maybe_switch_screen (sm : ScreenManager) (x y : Int) :
    (sm.maybe_switch_screen x y).screens = sm.screens ∧
    (sm.maybe_switch_screen x y).clients = sm.clients ∧
    (sm.maybe_switch_screen x y).config = sm.config ∧
    (sm.maybe_switch_screen x y).active_screen =
      (lastMatchingScreenIdx sm x y).getD sm.active_screen ∧
    ((∀ i, i < sm.screens.length →
        is_cursor_inside x y (sm.screens.getD i default).position = false) →
      sm.maybe_switch_screen x y = sm) ∧
    (∀ p : Position, is_cursor_inside p.right y p = false) ∧
    (∀ p : Position, is_cursor_inside x p.bottom p = false) := by
  have hmain : (sm.maybe_switch_screen x y).active_screen =
      (lastMatchingScreenIdx sm x y).getD sm.active_screen := by
    unfold ScreenManager.maybe_switch_screen lastMatchingScreenIdx
    dsimp only
    rw [enum_eq_range_map, foldl_if_last, List.filter_map, List.getLast?_map]
    simp [Function.comp_def, Option.map_map]
  refine ⟨rfl, rfl, rfl, hmain, ?_, ?_, ?_⟩
  · intro hnone
    have hempty : (List.range sm.screens.length).filter
        (fun i => is_cursor_inside x y (sm.screens.getD i default).position) = [] := by
      rw [List.filter_eq_nil_iff]
      intro i hi
      rw [hnone i (List.mem_range.mp hi)]
      simp
    have hacteq : (sm.maybe_switch_screen x y).active_screen = sm.active_screen := by
      rw [hmain]
      unfold lastMatchingScreenIdx
      rw [hempty]
      rfl
    obtain ⟨scr, cls, act, cfg⟩ := sm
    unfold ScreenManager.maybe_switch_screen at hacteq ⊢
    dsimp only at hacteq ⊢
    rw [hacteq]
  · intro p
    unfold is_cursor_inside Position.right
    have hx : ¬(p.x + (p.width : Int) < p.x + (p.width : Int)) := lt_irrefl _
    simp [hx]
  · intro p
    unfold is_cursor_inside Position.bottom
    have hy : ¬(p.y + (p.height : Int) < p.y + (p.height : Int)) := lt_irrefl _
    simp [hy]

/-- Claim C10: a cross-screen `move_client` step (boundary predicate true
and a neighboring screen found) leaves the client map unchanged (in
particular the moved client's recorded workspace field), clears the source
workspace's focus, appends the moved frame to the tail of the destination
screen's active workspace, and keeps the active-screen index. -/
theorem claim10_move_cross_screen (sm : ScreenManager)
    (we : Screen → Window → Screen) (csc : Screen → Window → Bool)
    (d : Direction) (sw : Screen → Window → Screen) (cl : Window) (j : Nat)
    (hact : sm.active_screen < sm.screens.length)
    (hwact : sm.activeScreen.active_workspace < sm.activeScreen.workspaces.length)
    (hwactj : (sm.screens.getD j default).active_workspace <
      (sm.screens.getD j default).workspaces.length)
    (hne : sm.activeScreen.activeWorkspace.clients.isEmpty = false)
    (hfoc : sm.activeScreen.focused_client = some cl)
    (hcsc : csc sm.activeScreen cl = true)
    (hrel : sm.get_relative_screen_idx d = some j)
    (hji : j ≠ sm.active_screen) :
    ∃ sm2, TallLayout.move_client sm we csc d sw = some sm2 ∧
      sm2.clients = sm.clients ∧
      mapGet sm2.clients cl = mapGet sm.clients cl ∧
      sm2.active_screen = sm.active_screen ∧
      (sm2.screens.getD sm.active_screen default).activeWorkspace.focused_client =
        none ∧
      (sm2.screens.getD sm.active_screen default).activeWorkspace.clients =
        sm.activeScreen.activeWorkspace.clients.filter (fun i => i ≠ cl) ∧
      (sm2.screens.getD j default).activeWorkspace.clients =
        (sm.screens.getD j default).activeWorkspace.clients ++ [cl] := by
  unfold ScreenManager.activeScreen at hwact hne hfoc hcsc
  unfold TallLayout.move_client
  dsimp only
  rw [if_neg (by omega : ¬sm.screens.length ≤ sm.active_screen)]
  rw [hne]
  rw [if_neg (by simp : ¬(false = true))]
  rw [hfoc]
  dsimp only
  rw [if_neg (by simp : ¬((some cl : Option Window).isNone = true))]
  rw [hcsc, if_pos rfl, hrel]
  dsimp only
  refine ⟨_, rfl, rfl, rfl, rfl, ?_, ?_, ?_⟩
  · rw [modifyScreen_getD_ne _ j _ _ hji]
    rw [modifyScreen_getD_self _ _ _ hact]
    rw [modifyActiveWorkspace_activeWorkspace _ _ hwact]
    unfold Workspace.remove_client
    dsimp only
    have hfoc2 : (sm.screens.getD sm.active_screen default).activeWorkspace.focused_client =
        some cl := hfoc
    rw [if_pos hfoc2]
  · rw [modifyScreen_getD_ne _ j _ _ hji]
    rw [modifyScreen_getD_self _ _ _ hact]
    rw [modifyActiveWorkspace_activeWorkspace _ _ hwact]
    rfl
  · rw [modifyScreen_getD_self _ j _ ?hj]
    case hj =>
      obtain ⟨hj, -, -, -⟩ := get_relative_some_char sm d j hrel
      show j < (sm.screens.set sm.active_screen _).length
      rw [List.length_set]
      exact hj
    rw [modifyScreen_getD_ne _ sm.active_screen _ _ (fun h => hji h.symm)]
    rw [modifyActiveWorkspace_activeWorkspace _ _ hwactj]
    rfl

/-- Witness for the claim-3 theorem: the column-width identity at a concrete
100×100 screen with three visible clients. -/
theorem claim3_witness :
    TallLayout.mainWidth 100 3 + (100 - TallLayout.mainWidth 100 3) = 100 :=
  (claim3_column_and_slice_cover ⟨0, 0, 100, 100⟩ 1 3 (by decide)).1

/-- Witness for the claim-7 theorem at a concrete two-screen state and
pointer position. -/
theorem claim7_witness :
    (smSwitch.maybe_switch_screen 2000 500).active_screen =
      (lastMatchingScreenIdx smSwitch 2000 500).getD smSwitch.active_screen :=
  (claim7_maybe_switch_screen smSwitch 2000 500).2.2.2.1

/-- Witness for the claim-10 theorem: moving focused client 2 left from the
first screen of `smMove` onto the screen at the origin. -/
theorem claim10_witness :
    ∃ sm2, TallLayout.move_client smMove TallLayout.focus_last TallLayout.is_first
        Direction.left TallLayout.swap_prev = some sm2 ∧
      sm2.clients = smMove.clients ∧
      mapGet sm2.clients 2 = mapGet smMove.clients 2 ∧
      sm2.active_screen = smMove.active_screen ∧
      (sm2.screens.getD smMove.active_screen default).activeWorkspace.focused_client =
        none ∧
      (sm2.screens.getD smMove.active_screen default).activeWorkspace.clients =
        smMove.activeScreen.activeWorkspace.clients.filter (fun i => i ≠ 2) ∧
      (sm2.screens.getD 1 default).activeWorkspace.clients =
        (smMove.screens.getD 1 default).activeWorkspace.clients ++ [2] :=
  claim10_move_cross_screen smMove TallLayout.focus_last TallLayout.is_first
    Direction.left TallLayout.swap_prev 2 1 (by decide) (by decide) (by decide)
    (by decide) (by decide) (by decide) (by decide) (by decide)


end WM
